import Mathlib

/-!
# Verification of the MyBloge front-end logic

Shallow embedding, in Lean 4, of the client-side logic of the MyBloge blog
platform (React + TypeScript + Supabase), together with theorems about the
embedded functions.

Modelling conventions:
* JavaScript strings are modelled as Lean `String` / `List Char`; `length` is
  the number of characters (JS counts UTF-16 units, which agrees on the BMP).
* Machine numbers that stay small (sizes, counts, offsets) are `Nat`; counters
  that the code may decrement below zero (`likesCount - 1`) are `Int`.
* Calls into the Supabase client library are reified as values of an explicit
  `BackendCall` type; an event handler is a pure function from its component
  state (and the response of the backend, where it matters) to a new state
  plus the list of backend calls it issues.
* `String.prototype.trim` / the `\s` regex class are modelled by
  `jsIsWhitespace`, covering the ECMAScript WhiteSpace and LineTerminator
  code points.
-/

namespace MyBlog

/-- The ECMAScript WhiteSpace ∪ LineTerminator set used by
`String.prototype.trim` and the `\s` regular-expression class:
TAB, LF, VT, FF, CR, SP, NBSP, OGHAM SP, U+2000–U+200A, LS, PS, NARROW NBSP,
MMSP, IDEOGRAPHIC SP, BOM. -/
def jsIsWhitespace (c : Char) : Bool :=
  c = '\t' ∨ c = '\n' ∨ c.val = 0x0B ∨ c.val = 0x0C ∨ c = '\r' ∨ c = ' ' ∨
  c.val = 0xA0 ∨ c.val = 0x1680 ∨ (0x2000 ≤ c.val ∧ c.val ≤ 0x200A) ∨
  c.val = 0x2028 ∨ c.val = 0x2029 ∨ c.val = 0x202F ∨ c.val = 0x205F ∨
  c.val = 0x3000 ∨ c.val = 0xFEFF

/-- The `String.prototype.trim` transform on the character list: drop leading and trailing
JS whitespace. -/
def jsTrimList (s : List Char) : List Char :=
  ((s.dropWhile jsIsWhitespace).reverse.dropWhile jsIsWhitespace).reverse

/-- The `String.prototype.trim` method. -/
def jsTrim (s : String) : String :=
  String.mk (jsTrimList s.data)

/-! ## src/lib/imageUtils.ts -/

/-- Constant `ALLOWED_IMAGE_TYPES` from src/lib/imageUtils.ts. -/
def ALLOWED_IMAGE_TYPES : List String :=
  ["image/jpeg", "image/jpg", "image/png", "image/gif", "image/webp"]

/-- Constant `MAX_FILE_SIZE` from src/lib/imageUtils.ts: 5 MiB. -/
def MAX_FILE_SIZE : Nat := 5 * 1024 * 1024

/-- Constant `MAX_IMAGE_WIDTH` from src/lib/imageUtils.ts. -/
def MAX_IMAGE_WIDTH : Nat := 1920

/-- Constant `MAX_IMAGE_HEIGHT` from src/lib/imageUtils.ts. -/
def MAX_IMAGE_HEIGHT : Nat := 1920

/-- The fields of a browser `File` object consulted by `validateImageFile`. -/
structure JsFile where
  type : String
  size : Nat
  deriving DecidableEq, Repr

/-- The `{ valid, error? }` result of `validateImageFile`. -/
structure ValidationResult where
  valid : Bool
  error : Option String
  deriving DecidableEq, Repr

/-- Function `validateImageFile` from src/lib/imageUtils.ts: the MIME-type check runs
first, then the size check. -/
def validateImageFile (file : JsFile) : ValidationResult :=
  if ¬ (file.type ∈ ALLOWED_IMAGE_TYPES) then
    ⟨false, some "jpg, png, gif, webp 파일만 업로드 가능합니다."⟩
  else if file.size > MAX_FILE_SIZE then
    ⟨false, some "파일이 너무 큽니다. 최대 5MB까지 업로드 가능합니다."⟩
  else
    ⟨true, none⟩

/-- The computation `Math.round (a / b)` for non-negative operands: JavaScript rounds half
away from zero, i.e. `⌊a / b + 1 / 2⌋ = ⌊(2 a + b) / (2 b)⌋`. -/
def mathRound (a b : Nat) : Nat :=
  (2 * a + b) / (2 * b)

/-- What `resizeImage`'s `img.onload` callback produces: either the original
`File` object unchanged, or a re-encoded blob of the given dimensions. -/
inductive ResizeOutcome where
  | original
  | resized (width height : Nat)
  deriving DecidableEq, Repr

/-- The dimension computation of `resizeImage` from src/lib/imageUtils.ts
(lines 35-56): if both dimensions are within the maxima the original file is
resolved unchanged; otherwise the larger axis is clamped and the other scaled
proportionally with `Math.round`. -/
def resizeDims (width height maxWidth maxHeight : Nat) : ResizeOutcome :=
  if width ≤ maxWidth ∧ height ≤ maxHeight then
    .original
  else if height < width then
    if maxWidth < width then .resized maxWidth (mathRound (height * maxWidth) width)
    else .resized width height
  else
    if maxHeight < height then .resized (mathRound (width * maxHeight) height) maxHeight
    else .resized width height

/-! ## Tag processing in WritePage / EditPage `handleSubmit` -/

/-- The tag-array computation of `handleSubmit`, identical in WritePage and
EditPage: `tags.split(',').map(trim).filter(nonempty).slice(0, 5)`. -/
def processTags (tags : String) : List String :=
  ((((tags.splitOn ",").map jsTrim).filter (fun t => t.length > 0)).take 5)

/-- The guard `if (tagArray.length > 5)` of `handleSubmit` that rejects the
submission with a "too many tags" error. -/
def tagsRejected (tags : String) : Bool :=
  decide ((processTags tags).length > 5)

/-! ## generateSlug (WritePage and EditPage, identical copies) -/

/-- The `\w` word-character class without the unicode flag:
`[A-Za-z0-9_]`. -/
def isWordChar (c : Char) : Bool :=
  ('a' ≤ c ∧ c ≤ 'z') ∨ ('A' ≤ c ∧ c ≤ 'Z') ∨ ('0' ≤ c ∧ c ≤ '9') ∨ c = '_'

/-- The Korean syllable range `가-힣` (U+AC00–U+D7A3). -/
def isHangulSyllable (c : Char) : Bool :=
  0xAC00 ≤ c.val ∧ c.val ≤ 0xD7A3

/-- A character kept by `replace(/[^\w\s가-힣-]/g, '')`. -/
def slugKeepChar (c : Char) : Bool :=
  isWordChar c || jsIsWhitespace c || isHangulSyllable c || c = '-'

/-- The `dropWhile` operation never lengthens a list (termination helper). -/
theorem length_dropWhile_le {α : Type} (p : α → Bool) (l : List α) :
    (l.dropWhile p).length ≤ l.length := by
  induction l with
  | nil => simp [List.dropWhile]
  | cons a l ih =>
    simp only [List.dropWhile_cons]
    split
    · exact Nat.le_succ_of_le ih
    · simp

/-- The transform `replace(/\s+/g, '-')`: each maximal whitespace run becomes one
hyphen. -/
def whitespaceRunsToHyphen : List Char → List Char
  | [] => []
  | c :: cs =>
    if jsIsWhitespace c then
      '-' :: whitespaceRunsToHyphen (cs.dropWhile jsIsWhitespace)
    else
      c :: whitespaceRunsToHyphen cs
termination_by s => s.length
decreasing_by
  · simp only [List.length_cons]
    exact Nat.lt_succ_of_le (length_dropWhile_le jsIsWhitespace cs)
  · simp [Nat.lt_succ_self]

/-- The `replace` collapsing each run of one or more consecutive hyphens into
a single hyphen. -/
def collapseHyphens : List Char → List Char
  | [] => []
  | c :: cs =>
    if c = '-' then
      '-' :: collapseHyphens (cs.dropWhile (fun d => d = '-'))
    else
      c :: collapseHyphens cs
termination_by s => s.length
decreasing_by
  · simp only [List.length_cons]
    exact Nat.lt_succ_of_le (length_dropWhile_le _ cs)
  · simp [Nat.lt_succ_self]

/-- The `toLowerCase` method, modelled per character with ASCII lowering (the characters
this can differ on are removed by the subsequent character filter, Korean
syllables being caseless). -/
def jsToLower (s : String) : String :=
  String.mk (s.data.map Char.toLower)

/-- The suffix `Date.now().toString().slice(-6)`: the last (at most) six characters of
the decimal representation of the timestamp. -/
def lastSixDigits (now : Nat) : String :=
  String.mk ((toString now).data.drop ((toString now).data.length - 6))

/-- Function `generateSlug` from WritePage / EditPage (two identical copies):
lowercase, trim, strip characters outside `[\w\s가-힣-]`, whitespace runs to
hyphens, collapse hyphen runs, truncate to 50 characters and append
a hyphen plus the last six digits of `Date.now()`. -/
def generateSlug (title : String) (now : Nat) : String :=
  String.mk
    ((collapseHyphens
      (whitespaceRunsToHyphen
        ((jsTrimList (jsToLower title).data).filter slugKeepChar))).take 50)
  ++ "-" ++ lastSixDigits now

/-! ## Reified Supabase client calls

Each constructor records one call into the backend client library, with the
table, the payload and the `.eq` filters the code attaches.  `user_id`
filters coming from `user?.id` are `Option String` (the user may be absent).
-/

/-- A call into the Supabase client, as issued by the handlers modelled
below. -/
inductive BackendCall where
  /-- `from('post_comments').insert({post_id, user_id, content, parent_id})` -/
  | insertComment (postId userId content : String) (parentId : Option String)
  /-- `from('post_comments').update({content, updated_at}).eq('id', ...).eq('user_id', ...)` -/
  | updateComment (commentId : String) (userIdFilter : Option String)
      (content updatedAt : String)
  /-- `from('post_comments').update({deleted_at}).eq('id', ...).eq('user_id', ...)` -/
  | softDeleteComment (commentId : String) (userIdFilter : Option String)
      (deletedAt : String)
  /-- `from('post_comments').delete()` — never issued by the code; present so
  that "soft delete, never a row deletion" is expressible. -/
  | hardDeleteComment (commentId : String)
  /-- `from('comment_likes').insert({comment_id, user_id})` -/
  | insertCommentLike (commentId userId : String)
  /-- `from('comment_likes').delete().eq('comment_id', ...).eq('user_id', ...)` -/
  | deleteCommentLike (commentId userId : String)
  /-- `from('post_likes').insert({post_id, user_id})` -/
  | insertPostLike (postId userId : String)
  /-- `from('post_likes').delete().eq('post_id', ...).eq('user_id', ...)` -/
  | deletePostLike (postId userId : String)
  deriving DecidableEq, Repr

/-- How a submit handler exits: with one of its client-side validation error
toasts, or by issuing its backend call. -/
inductive SubmitOutcome where
  | errLogin
  | errEmpty
  | errTooLong
  | ok
  deriving DecidableEq, Repr

/-! ## CommentSection (unnamed part_005) -/

/-- Handler `handleSubmitComment`: sign-in check, then blank check on the trimmed
text, then the 1000-character ceiling on the untrimmed text; only then the
insert of the trimmed text with `parent_id: null`. -/
def handleSubmitComment (user : Option String) (postId newComment : String) :
    SubmitOutcome × List BackendCall :=
  match user with
  | none => (.errLogin, [])
  | some uid =>
    if jsTrim newComment = "" then (.errEmpty, [])
    else if newComment.length > 1000 then (.errTooLong, [])
    else (.ok, [.insertComment postId uid (jsTrim newComment) none])

/-- Handler `handleSubmitReply`: as `handleSubmitComment` but inserting with
`parent_id: parentId`. -/
def handleSubmitReply (user : Option String) (postId parentId replyContent : String) :
    SubmitOutcome × List BackendCall :=
  match user with
  | none => (.errLogin, [])
  | some uid =>
    if jsTrim replyContent = "" then (.errEmpty, [])
    else if replyContent.length > 1000 then (.errTooLong, [])
    else (.ok, [.insertComment postId uid (jsTrim replyContent) (some parentId)])

/-- Handler `handleEditComment`: blank check on the trimmed text, then the
1000-character ceiling; only then the update of the trimmed text, filtered
by the comment id and `user?.id` (no explicit sign-in check). -/
def handleEditComment (user : Option String) (commentId editContent now : String) :
    SubmitOutcome × List BackendCall :=
  if jsTrim editContent = "" then (.errEmpty, [])
  else if editContent.length > 1000 then (.errTooLong, [])
  else (.ok, [.updateComment commentId user (jsTrim editContent) now])

/-- Handler `handleDeleteComment`: after the `window.confirm` dialog, an update
setting `deleted_at` to the current time on the row matching the comment id
and `user?.id`; never a row deletion. -/
def handleDeleteComment (user : Option String) (confirmed : Bool)
    (commentId now : String) : List BackendCall :=
  if confirmed then [.softDeleteComment commentId user now]
  else []

/-- What the comment (or reply) body renders as in `CommentSection`. -/
inductive RenderedBody where
  | redacted
  | editor (draft : String)
  | content (text : String)
  deriving DecidableEq, Repr

/-- The body render of a comment or reply: `comment.deleted_at ?` renders the
"삭제된 댓글입니다" placeholder (a JS truthiness test on the nullable string),
else the edit textarea when this entry is being edited, else the content. -/
def renderCommentBody (deletedAt : Option String) (isEditing : Bool)
    (editDraft text : String) : RenderedBody :=
  if (match deletedAt with | none => false | some s => s ≠ "") then .redacted
  else if isEditing then .editor editDraft
  else .content text

/-- A nested reply row as held in `CommentSection` state (one nesting level;
the code stores replies with an always-empty `replies` field of their
own). -/
structure ReplyItem where
  id : String
  content : String
  userId : String
  deletedAt : Option String
  likesCount : Int
  isLiked : Bool
  deriving DecidableEq, Repr

/-- A top-level comment row as held in `CommentSection` state. -/
structure CommentItem where
  id : String
  content : String
  userId : String
  deletedAt : Option String
  likesCount : Int
  isLiked : Bool
  repliesCount : Nat
  replies : List ReplyItem
  deriving DecidableEq, Repr

/-- The inner `comment.replies.map(reply => ...)` lambda of
`handleToggleLike`: a reply matching the toggled id gets `isLiked: !isLiked`
and its count moved by one. -/
def applyLikeToReply (commentId : String) (isLiked : Bool) (reply : ReplyItem) :
    ReplyItem :=
  if reply.id = commentId then
    { reply with
      isLiked := !isLiked
      likesCount := if isLiked then reply.likesCount - 1 else reply.likesCount + 1 }
  else reply

/-- The outer `comments.map(comment => ...)` lambda of `handleToggleLike`:
a matching comment gets the flip; otherwise, when it has replies, the reply
mapping is applied; otherwise it is returned as is. -/
def applyLikeToComment (commentId : String) (isLiked : Bool)
    (comment : CommentItem) : CommentItem :=
  if comment.id = commentId then
    { comment with
      isLiked := !isLiked
      likesCount := if isLiked then comment.likesCount - 1 else comment.likesCount + 1 }
  else if comment.replies.length > 0 then
    { comment with replies := comment.replies.map (applyLikeToReply commentId isLiked) }
  else comment

/-- The `setComments(comments.map(...))` update of `handleToggleLike` after
a successful backend call. -/
def updateCommentsLike (comments : List CommentItem) (commentId : String)
    (isLiked : Bool) : List CommentItem :=
  comments.map (applyLikeToComment commentId isLiked)

/-- The `CommentSection` component state consulted by `handleToggleLike`.
There is no in-flight flag for like toggles in this component. -/
structure CommentSectionState where
  user : Option String
  comments : List CommentItem
  deriving DecidableEq, Repr

/-- Handler `handleToggleLike` of `CommentSection`: with a signed-in user it always
issues a delete or an insert on `comment_likes` (there is no in-flight
guard), and on success applies `updateCommentsLike` to the local list. -/
def handleToggleLike (s : CommentSectionState) (commentId : String)
    (isLiked : Bool) (success : Bool) : CommentSectionState × List BackendCall :=
  match s.user with
  | none => (s, [])
  | some uid =>
    let call := if isLiked then BackendCall.deleteCommentLike commentId uid
                else BackendCall.insertCommentLike commentId uid
    if success then
      ({ s with comments := updateCommentsLike s.comments commentId isLiked }, [call])
    else
      (s, [call])

/-! ## PostDetailPage `handleLikeToggle` -/

/-- The `PostDetailPage` state consulted by `handleLikeToggle`. -/
structure PostLikeState where
  user : Option String
  likingInProgress : Bool
  heartAnimation : Bool
  isLiked : Bool
  likesCount : Int
  deriving DecidableEq, Repr

/-- Handler `handleLikeToggle` of `PostDetailPage`: sign-in check, then the
`likingInProgress` in-flight guard (before any state change), then the
animation and flag set, one backend call, the optimistic count update on
success, and `finally { setLikingInProgress(false) }` on success and failure
alike.  The 600 ms animation reset timer is outside the model, so
`heartAnimation` stays `true` in the post-state of a run that passed the
guard. -/
def handleLikeToggle (postId : String) (s : PostLikeState) (success : Bool) :
    PostLikeState × List BackendCall :=
  match s.user with
  | none => (s, [])
  | some uid =>
    if s.likingInProgress then (s, [])
    else
      let s1 := { s with heartAnimation := true, likingInProgress := true }
      let call := if s.isLiked then BackendCall.deletePostLike postId uid
                  else BackendCall.insertPostLike postId uid
      if success then
        (if s.isLiked then
          { s1 with isLiked := false, likesCount := s.likesCount - 1, likingInProgress := false }
         else
          { s1 with isLiked := true, likesCount := s.likesCount + 1, likingInProgress := false },
         [call])
      else
        ({ s1 with likingInProgress := false }, [call])

/-! ## HomePage `fetchPosts` (unnamed part_003) -/

/-- Constant `POSTS_PER_PAGE` from HomePage. -/
def POSTS_PER_PAGE : Nat := 12

/-- The sort options of HomePage. -/
inductive SortOption where
  | latest
  | popular
  deriving DecidableEq, Repr

/-- A row of the `posts` table as far as `fetchPosts` consults it. -/
structure PostRow where
  id : String
  isPublic : Bool
  deriving DecidableEq, Repr

/-- A fetched post augmented with the like and comment counts obtained from
the per-post count queries. -/
structure PostWithCounts where
  post : PostRow
  likes_count : Nat
  comments_count : Nat
  deriving DecidableEq, Repr

/-- The "popular" score: `likes_count + comments_count`. -/
def popularScore (p : PostWithCounts) : Nat :=
  p.likes_count + p.comments_count

/-- The comparator `(a, b) => scoreB - scoreA` passed to `Array.sort` orders
by non-increasing score; `Array.sort` is modelled by `List.insertionSort`
with the corresponding relation (a before b when `score b ≤ score a`). -/
def sortByScoreDesc (l : List PostWithCounts) : List PostWithCounts :=
  l.insertionSort (fun a b => popularScore b ≤ popularScore a)

/-- Function `fetchPosts` of HomePage, for one page: the backend query filters
`is_public = true` over the server-ordered relation `rows`, `range(from, to)`
takes row offsets `12p .. 12p+11`, each fetched post is augmented with its
like/comment counts, a `popular` sort is re-sorted client-side, and
`hasMore` is `count ? from + POSTS_PER_PAGE < count : false`. -/
def fetchPosts (rows : List PostRow) (likesOf commentsOf : String → Nat)
    (sort : SortOption) (p : Nat) (count : Option Nat) :
    List PostWithCounts × Bool :=
  let pub := rows.filter (fun r => r.isPublic)
  let page := (pub.drop (POSTS_PER_PAGE * p)).take POSTS_PER_PAGE
  let withCounts := page.map fun r => ⟨r, likesOf r.id, commentsOf r.id⟩
  let sorted := if sort = .popular then sortByScoreDesc withCounts else withCounts
  let hasMore :=
    match count with
    | some c => decide (POSTS_PER_PAGE * p + POSTS_PER_PAGE < c)
    | none => false
  (sorted, hasMore)

/-! ## SearchPage `highlightText`

`highlightText` builds `new RegExp('(' + searchQuery + ')', 'gi')` from the
raw query, splits the text on it (the capture group splices the matches into
the parts array) and marks a part when `regex.test(part)` — a stateful test,
since the `g` flag makes `lastIndex` persist across calls.

The ECMAScript regular-expression semantics is modelled on the fragment the
claims exercise: literal characters and the `.` wildcard, case-insensitive
matching per the `i` flag.  Queries using any other metacharacter fall
outside the model (`jsRegexTokens` returns `none`); for queries inside the
fragment the model follows the ECMAScript matching, `@@split` and
`RegExp.prototype.test` algorithms. -/

/-- One pattern atom of the modelled regex fragment. -/
inductive RTok where
  | lit (c : Char)
  | anyChar
  deriving DecidableEq, Repr

/-- The ECMAScript pattern metacharacters (syntax characters). -/
def regexMetachars : List Char :=
  ['\\', '^', '$', '.', '*', '+', '?', '(', ')', '[', ']', '{', '}', '|']

/-- Tokenize the query as spliced into the pattern: a plain character is a
literal, `.` is the any-character atom, any other metacharacter leaves the
modelled fragment. -/
def jsRegexTokens : List Char → Option (List RTok)
  | [] => some []
  | c :: cs =>
    if c = '.' then (jsRegexTokens cs).map (fun ts => RTok.anyChar :: ts)
    else if c ∈ regexMetachars then none
    else (jsRegexTokens cs).map (fun ts => RTok.lit c :: ts)

/-- Case-insensitive character match per the `i` flag (ASCII folding, which
coincides with the ECMAScript canonicalization on ASCII). -/
def charEqCI (a b : Char) : Bool :=
  a.toLower = b.toLower

/-- Whether one atom matches one character: `.` matches everything except
the ECMAScript line terminators. -/
def tokMatches : RTok → Char → Bool
  | .lit l, c => charEqCI l c
  | .anyChar, c =>
    ¬ (c = '\n' ∨ c = '\r' ∨ c.val = 0x2028 ∨ c.val = 0x2029)

/-- Whether the token list matches a prefix of `s` (each atom consuming one
character). -/
def matchesFront : List RTok → List Char → Bool
  | [], _ => true
  | _ :: _, [] => false
  | t :: ts, c :: cs => tokMatches t c && matchesFront ts cs

/-- The leftmost match of the pattern in `s`: `some (pre, m, rest)` with
`s = pre ++ m ++ rest`, `m` the matched characters. -/
def findMatch (toks : List RTok) : List Char → Option (List Char × List Char × List Char)
  | [] => if matchesFront toks [] then some ([], [], []) else none
  | c :: cs =>
    if matchesFront toks (c :: cs) then
      some ([], (c :: cs).take toks.length, (c :: cs).drop toks.length)
    else
      (findMatch toks cs).map (fun pr => (c :: pr.1, pr.2.1, pr.2.2))

/-- Lemma: `findMatch` decomposes its input (also gives the termination bound for
`splitCapture`). -/
theorem findMatch_append (toks : List RTok) (s pre m rest : List Char)
    (h : findMatch toks s = some (pre, m, rest)) :
    pre ++ m ++ rest = s := by
  induction s generalizing pre m rest with
  | nil =>
    simp only [findMatch] at h
    split at h
    · simp_all
    · simp_all
  | cons c cs ih =>
    simp only [findMatch] at h
    split at h
    · simp only [Option.some.injEq, Prod.mk.injEq] at h
      obtain ⟨h1, h2, h3⟩ := h
      subst h1; subst h2; subst h3
      simp [List.take_append_drop]
    · cases hf : findMatch toks cs with
      | none => simp [hf] at h
      | some pr =>
        obtain ⟨pre', m', rest'⟩ := pr
        simp only [hf, Option.map_some, Option.some.injEq, Prod.mk.injEq] at h
        obtain ⟨h1, h2, h3⟩ := h
        simpa using ih pre' m' rest' hf

/-- A found match of a nonempty pattern is nonempty, so the remainder is
strictly shorter than the input. -/
theorem findMatch_rest_lt (t : RTok) (ts : List RTok) (s pre m rest : List Char)
    (h : findMatch (t :: ts) s = some (pre, m, rest)) :
    rest.length < s.length := by
  induction s generalizing pre m rest with
  | nil =>
    simp [findMatch, matchesFront] at h
  | cons c cs ih =>
    simp only [findMatch] at h
    split at h
    · simp only [Option.some.injEq, Prod.mk.injEq] at h
      obtain ⟨h1, h2, h3⟩ := h
      subst h3
      simp only [List.length_drop, List.length_cons]
      omega
    · cases hf : findMatch (t :: ts) cs with
      | none => simp [hf] at h
      | some pr =>
        obtain ⟨pre', m', rest'⟩ := pr
        simp only [hf, Option.map_some, Option.some.injEq, Prod.mk.injEq] at h
        obtain ⟨h1, h2, h3⟩ := h
        exact Nat.lt_succ_of_lt (ih pre' m' rest' hf)

/-- The `@@split` algorithm with a one-capture-group pattern, on fuel: the part before
each match, the captured match itself, recursively; the part after the last
match closes the list.  The fuel only serves structural recursion; each
found match of the nonempty pattern is nonempty, so `s.length + 1` fuel is
always enough (`splitCaptureF_congr`). -/
def splitCaptureF (t : RTok) (ts : List RTok) : Nat → List Char → List (List Char)
  | 0, s => [s]
  | fuel + 1, s =>
    match findMatch (t :: ts) s with
    | none => [s]
    | some (pre, m, rest) => pre :: m :: splitCaptureF t ts fuel rest

/-- The `@@split` algorithm with a one-capture-group pattern (nonempty: the query trims
non-blank, so it has at least one atom, treated as the separate head
argument). -/
def splitCapture (t : RTok) (ts : List RTok) (s : List Char) : List (List Char) :=
  splitCaptureF t ts (s.length + 1) s

/-- Sufficient fuel makes `splitCaptureF` fuel-independent. -/
theorem splitCaptureF_congr (t : RTok) (ts : List RTok) :
    ∀ fuel fuel' s, s.length < fuel → s.length < fuel' →
      splitCaptureF t ts fuel s = splitCaptureF t ts fuel' s := by
  intro fuel
  induction fuel with
  | zero => intro fuel' s h _; omega
  | succ fuel ih =>
    intro fuel' s h h'
    cases fuel' with
    | zero => omega
    | succ fuel' =>
      simp only [splitCaptureF]
      cases hf : findMatch (t :: ts) s with
      | none => rfl
      | some pr =>
        obtain ⟨pre, m, rest⟩ := pr
        have hrest := findMatch_rest_lt t ts s pre m rest hf
        simp only []
        rw [ih fuel' rest (by omega) (by omega)]

/-- The first match position at or beyond `lastIndex`, as
`RegExp.prototype.exec` consults it under the `g` flag. -/
def firstMatchFrom (toks : List RTok) (s : List Char) (lastIndex : Nat) : Option Nat :=
  (List.range (s.length + 1)).find?
    (fun p => lastIndex ≤ p && matchesFront toks (s.drop p))

/-- The `parts.map(part => regex.test(part) ? mark : plain)` pass: `test`
with the `g` flag searches from the persisted `lastIndex`, advances it past
a successful match and resets it to 0 on failure. -/
def markParts (toks : List RTok) : List (List Char) → Nat → List (List Char × Bool)
  | [], _ => []
  | part :: rest, lastIndex =>
    match firstMatchFrom toks part lastIndex with
    | some p => (part, true) :: markParts toks rest (p + toks.length)
    | none => (part, false) :: markParts toks rest 0

/-- Function `highlightText` from SearchPage: a blank-trimming query returns the text
as one plain fragment; otherwise the text is split on
`new RegExp('(' + query + ')', 'gi')` and each part marked by the stateful
`regex.test`.  `none` when the query leaves the modelled regex fragment. -/
def highlightText (text query : String) : Option (List (String × Bool)) :=
  if jsTrim query = "" then some [(text, false)]
  else
    match jsRegexTokens query.data with
    | none => none
    | some [] => none
    | some (t :: ts) =>
      some ((markParts (t :: ts) (splitCapture t ts text.data) 0).map
        (fun pr => (String.mk pr.1, pr.2)))

/-- Case-insensitive equality of a fragment with the query, the notion of
"equals the search query up to character case" used by claim C10. -/
def stringEqCI (a b : List Char) : Bool :=
  a.length = b.length && (a.zip b).all (fun pr => charEqCI pr.1 pr.2)

/-! ## Helper lemmas -/

/-- If `a ≤ b * c` then rounding `a / b` stays at most `c`. -/
theorem mathRound_le (a b c : Nat) (hb : 0 < b) (h : a ≤ b * c) :
    mathRound a b ≤ c := by
  have hdm := Nat.div_add_mod (2 * a + b) (2 * b)
  simp only [mathRound]
  by_contra hcon
  push_neg at hcon
  have h1 : 2 * b * ((2 * a + b) / (2 * b)) ≤ 2 * a + b := by omega
  have h2 : c + 1 ≤ (2 * a + b) / (2 * b) := hcon
  have h3 : 2 * b * (c + 1) ≤ 2 * b * ((2 * a + b) / (2 * b)) :=
    Nat.mul_le_mul_left (2 * b) h2
  nlinarith

/-- The value `mathRound a b` is within half of the exact quotient:
`2 * b * (mathRound a b)` lies in `(2 a - b, 2 a + b]`. -/
theorem mathRound_bounds (a b : Nat) (hb : 0 < b) :
    2 * b * mathRound a b ≤ 2 * a + b ∧ 2 * a + b < 2 * b * mathRound a b + 2 * b := by
  have hpos : 0 < 2 * b := by omega
  have hdm := Nat.div_add_mod (2 * a + b) (2 * b)
  have hlt := Nat.mod_lt (2 * a + b) hpos
  constructor
  · simp only [mathRound]
    omega
  · simp only [mathRound]
    omega

/-! ## Theorems for the claims -/

/-- C3: `validateImageFile` accepts a file exactly when its MIME type is in
the allow-list and its size does not exceed 5 MiB inclusive; otherwise it
returns `valid = false` with an error message, and the type check runs
before the size check (an oversized non-image gets the type error). -/
theorem C3_validateImageFile_characterization (f : JsFile) :
    ((validateImageFile f).valid = true ↔
      f.type ∈ ALLOWED_IMAGE_TYPES ∧ f.size ≤ MAX_FILE_SIZE) ∧
    (f.type ∉ ALLOWED_IMAGE_TYPES →
      validateImageFile f =
        ⟨false, some "jpg, png, gif, webp 파일만 업로드 가능합니다."⟩) ∧
    (f.type ∈ ALLOWED_IMAGE_TYPES → MAX_FILE_SIZE < f.size →
      validateImageFile f =
        ⟨false, some "파일이 너무 큽니다. 최대 5MB까지 업로드 가능합니다."⟩) := by
  refine ⟨?_, ?_, ?_⟩
  · unfold validateImageFile
    split_ifs with h1 h2 <;> simp_all
  · intro ht
    unfold validateImageFile
    simp [ht]
  · intro ht hsz
    unfold validateImageFile
    simp [ht, hsz]

/-- Witness for C3: a concrete non-image file is rejected with the type
message even though it is also oversized, and a small PNG is accepted. -/
theorem C3_validateImageFile_characterization_witness :
    validateImageFile ⟨"text/plain", 6 * 1024 * 1024⟩ =
      ⟨false, some "jpg, png, gif, webp 파일만 업로드 가능합니다."⟩ ∧
    (validateImageFile ⟨"image/png", 5 * 1024 * 1024⟩).valid = true :=
  ⟨(C3_validateImageFile_characterization ⟨"text/plain", 6 * 1024 * 1024⟩).2.1
      (by decide),
   (C3_validateImageFile_characterization ⟨"image/png", 5 * 1024 * 1024⟩).1.mpr
      ⟨by decide, by decide⟩⟩

/-- C9: the tag array built by `handleSubmit` (split on commas, trim, drop
empties, take five) always has length at most 5, so the error branch
rejecting more than five tags is unreachable for every input string. -/
theorem C9_tag_array_le_five (tags : String) :
    (processTags tags).length ≤ 5 ∧ tagsRejected tags = false := by
  constructor
  · simp only [processTags, List.length_take]
    omega
  · simp only [tagsRejected, decide_eq_false_iff_not, not_lt, processTags,
      List.length_take]
    omega

/-- C4: `generateSlug` is a pure function of the title and the timestamp; it
produces a truncated base of at most 50 characters followed by a hyphen and
the last at-most-six digits of the timestamp, so its length is at most 57. -/
theorem C4_generateSlug_length (title : String) (now : Nat) :
    (generateSlug title now).length ≤ 57 ∧
    ∃ base : String,
      generateSlug title now = base ++ "-" ++ lastSixDigits now ∧
      base.length ≤ 50 ∧ (lastSixDigits now).length ≤ 6 := by
  have hbase :
      (String.mk
        ((collapseHyphens
          (whitespaceRunsToHyphen
            ((jsTrimList (jsToLower title).data).filter slugKeepChar))).take 50)).length ≤ 50 := by
    simp only [String.length, String.data, List.length_take]
    omega
  have hsix : (lastSixDigits now).length ≤ 6 := by
    simp only [lastSixDigits, String.length, String.data, List.length_drop]
    omega
  have hone : ("-" : String).length = 1 := rfl
  refine ⟨?_, _, rfl, hbase, hsix⟩
  simp only [generateSlug, String.length_append, hone]
  omega

/-- C5 counterexample: with the asymmetric maxima (1920, 900), a 2000×1000
image lands on the width branch, which clamps the width only; the computed
height 960 exceeds maxHeight = 900, contrary to the claim's "each at most
the corresponding maximum" for every pair of maxima. -/
theorem C5_resize_counterexample :
    resizeDims 2000 1000 1920 900 = .resized 1920 960 ∧ ¬ (960 ≤ 900) := by
  constructor
  · decide
  · decide

/-- C5 (amended): for equal maxima — as in every call, the defaults being
1920×1920 — the dimension computation of `resizeImage` is a downscale:
within the maxima the original file is returned; otherwise both computed
dimensions are at most the maximum, no larger than the originals, and the
aspect ratio is preserved up to `Math.round`. -/
theorem C5_resizeDims_downscale (w h M : Nat) (hw : 0 < w) (hh : 0 < h) :
    (w ≤ M ∧ h ≤ M → resizeDims w h M M = .original) ∧
    (¬ (w ≤ M ∧ h ≤ M) →
      ∃ w' h', resizeDims w h M M = .resized w' h' ∧
        w' ≤ M ∧ h' ≤ M ∧ w' ≤ w ∧ h' ≤ h ∧
        |2 * ((h' : Int) * w - (h : Int) * w')| ≤ max w h) := by
  constructor
  · intro hin
    simp [resizeDims, hin]
  · intro hnot
    by_cases hlt : h < w
    · have hMw : M < w := by
        rcases Decidable.not_and_iff_or_not.mp hnot with hM | hM <;> omega
      refine ⟨M, mathRound (h * M) w, ?_, le_refl M, ?_, by omega, ?_, ?_⟩
      · simp [resizeDims, hlt, hMw]
      · exact mathRound_le (h * M) w M hw (by nlinarith)
      · exact mathRound_le (h * M) w h hw (by nlinarith)
      · obtain ⟨hb1, hb2⟩ := mathRound_bounds (h * M) w hw
        rw [abs_le]
        have hmax : (w : Int) ≤ ((max w h : Nat) : Int) := by
          exact_mod_cast Nat.le_max_left w h
        have hb1' : (2 * w * mathRound (h * M) w : Int) ≤ 2 * (h * M) + w := by
          exact_mod_cast hb1
        have hb2' : (2 * (h * M) + w : Int) < 2 * w * mathRound (h * M) w + 2 * w := by
          exact_mod_cast hb2
        constructor
        · push_cast
          push_cast at hb1' hb2' hmax
          linarith
        · push_cast
          push_cast at hb1' hb2' hmax
          linarith
    · have hwh : w ≤ h := by omega
      have hMh : M < h := by
        rcases Decidable.not_and_iff_or_not.mp hnot with hM | hM <;> omega
      refine ⟨mathRound (w * M) h, M, ?_, ?_, le_refl M, ?_, by omega, ?_⟩
      · simp [resizeDims, hlt, hMh]
      · exact mathRound_le (w * M) h M hh (by nlinarith)
      · exact mathRound_le (w * M) h w hh (by nlinarith)
      · obtain ⟨hb1, hb2⟩ := mathRound_bounds (w * M) h hh
        rw [abs_le]
        have hmax : (h : Int) ≤ ((max w h : Nat) : Int) := by
          exact_mod_cast Nat.le_max_right w h
        have hb1' : (2 * h * mathRound (w * M) h : Int) ≤ 2 * (w * M) + h := by
          exact_mod_cast hb1
        have hb2' : (2 * (w * M) + h : Int) < 2 * h * mathRound (w * M) h + 2 * h := by
          exact_mod_cast hb2
        constructor
        · push_cast
          push_cast at hb1' hb2' hmax
          linarith
        · push_cast
          push_cast at hb1' hb2' hmax
          linarith

/-- Witness for C5: a 3000×2000 image under the default 1920×1920 maxima is
resized to 1920×1280, a downscale within the maxima. -/
theorem C5_resizeDims_downscale_witness :
    resizeDims 3000 2000 1920 1920 = .resized 1920 1280 ∧
    (1920 ≤ 1920 ∧ 1280 ≤ 1920 ∧ 1920 ≤ 3000 ∧ 1280 ≤ 2000) := by
  have h := (C5_resizeDims_downscale 3000 2000 1920 (by decide) (by decide)).2
    (by decide)
  obtain ⟨w', h', heq, h1, h2, h3, h4, _⟩ := h
  have hw' : w' = 1920 := by
    have : resizeDims 3000 2000 1920 1920 = .resized 1920 1280 := by decide
    rw [this] at heq
    injection heq.symm with e1 e2
  have hh' : h' = 1280 := by
    have : resizeDims 3000 2000 1920 1920 = .resized 1920 1280 := by decide
    rw [this] at heq
    injection heq.symm with e1 e2
  subst hw'; subst hh'
  exact ⟨heq.symm ▸ by decide, h1, h2, h3, h4⟩

/-- C1: every comment / reply / edit text longer than 1000 characters is
rejected client-side with an error and no insert or update is issued; with a
signed-in user, non-blank trimmed text and length at most 1000, the trimmed
text is sent. -/
theorem C1_comment_length_validation (user : Option String)
    (postId parentId commentId text now : String) :
    (1000 < text.length →
      ((handleSubmitComment user postId text).2 = [] ∧
        (handleSubmitComment user postId text).1 ≠ .ok) ∧
      ((handleSubmitReply user postId parentId text).2 = [] ∧
        (handleSubmitReply user postId parentId text).1 ≠ .ok) ∧
      ((handleEditComment user commentId text now).2 = [] ∧
        (handleEditComment user commentId text now).1 ≠ .ok)) ∧
    (∀ uid, user = some uid → jsTrim text ≠ "" → text.length ≤ 1000 →
      handleSubmitComment user postId text =
        (.ok, [.insertComment postId uid (jsTrim text) none]) ∧
      handleSubmitReply user postId parentId text =
        (.ok, [.insertComment postId uid (jsTrim text) (some parentId)]) ∧
      handleEditComment user commentId text now =
        (.ok, [.updateComment commentId (some uid) (jsTrim text) now])) := by
  constructor
  · intro hlen
    refine ⟨?_, ?_, ?_⟩ <;>
      cases user <;>
        simp [handleSubmitComment, handleSubmitReply, handleEditComment,
          hlen, apply_ite] <;>
        split_ifs <;> simp
  · intro uid huser h1 h2
    subst huser
    have h2' : ¬ (1000 : Nat) < text.length := Nat.not_lt.mpr h2
    simp [handleSubmitComment, handleSubmitReply, handleEditComment, h1, h2']

/-- Witness for C1: a 1001-character comment issues no backend call in any
of the three handlers, while a short comment is inserted trimmed. -/
theorem C1_comment_length_validation_witness :
    ((handleSubmitComment (some "u") "p" (String.mk (List.replicate 1001 'x'))).2 = [] ∧
      (handleSubmitComment (some "u") "p" (String.mk (List.replicate 1001 'x'))).1 ≠ .ok) ∧
    ((handleSubmitReply (some "u") "p" "par" (String.mk (List.replicate 1001 'x'))).2 = [] ∧
      (handleSubmitReply (some "u") "p" "par" (String.mk (List.replicate 1001 'x'))).1 ≠ .ok) ∧
    ((handleEditComment (some "u") "c" (String.mk (List.replicate 1001 'x')) "t").2 = [] ∧
      (handleEditComment (some "u") "c" (String.mk (List.replicate 1001 'x')) "t").1 ≠ .ok) ∧
    handleSubmitComment (some "u") "p" " hi " =
      (.ok, [.insertComment "p" "u" (jsTrim " hi ") none]) := by
  have hlong := (C1_comment_length_validation (some "u") "p" "par" "c"
    (String.mk (List.replicate 1001 'x')) "t").1
    (lt_of_lt_of_eq (show (1000 : Nat) < 1001 by omega)
      (List.length_replicate 1001 'x').symm)
  have hshort := (C1_comment_length_validation (some "u") "p" "par" "c"
    " hi " "t").2 "u" rfl (by decide) (by decide)
  exact ⟨hlong.1, hlong.2.1, hlong.2.2, hshort.1⟩

/-- C2 counterexample: the comment like toggle of `CommentSection` has no
in-flight flag at all — its component state records nothing about a pending
request — so invoking it again while a first toggle is still in flight finds
the very same state and issues another backend call, where the claim
requires none. -/
theorem C2_comment_toggle_unguarded :
    (handleToggleLike ⟨some "u1", []⟩ "c1" false true).2 =
      [.insertCommentLike "c1" "u1"] ∧
    (handleToggleLike ⟨some "u1", []⟩ "c1" false true).2 ≠ [] := by
  constructor <;> decide

/-- C2 (amended): the post like toggle is guarded by `likingInProgress`
(while set, a second invocation issues no backend call and changes no state,
and the flag is cleared on completion whether the request succeeded or
failed); the comment like toggle has no such guard and issues a backend call
on every invocation by a signed-in user. -/
theorem C2_in_flight_guard (s : PostLikeState) (postId : String) (success : Bool)
    (uid : String) (hu : s.user = some uid)
    (cs : CommentSectionState) (commentId : String) (isLiked csSuccess : Bool)
    (uid2 : String) (hcu : cs.user = some uid2) :
    (s.likingInProgress = true → handleLikeToggle postId s success = (s, [])) ∧
    (s.likingInProgress = false →
      (handleLikeToggle postId s success).1.likingInProgress = false) ∧
    (handleToggleLike cs commentId isLiked csSuccess).2 ≠ [] := by
  refine ⟨?_, ?_, ?_⟩
  · intro hip
    simp [handleLikeToggle, hu, hip]
  · intro hip
    by_cases hsl : s.isLiked <;> cases success <;>
      simp [handleLikeToggle, hu, hip, hsl]
  · cases isLiked <;> cases csSuccess <;>
      simp [handleToggleLike, hcu]

/-- Witness for C2: concrete in-flight and idle post states, and a concrete
comment toggle. -/
theorem C2_in_flight_guard_witness :
    handleLikeToggle "p1" ⟨some "u", true, false, false, 0⟩ true =
      (⟨some "u", true, false, false, 0⟩, []) ∧
    (handleLikeToggle "p1" ⟨some "u", false, false, true, 3⟩ false).1.likingInProgress
      = false ∧
    (handleToggleLike ⟨some "u", []⟩ "c" true true).2 ≠ [] := by
  refine ⟨?_, ?_, ?_⟩
  · exact (C2_in_flight_guard ⟨some "u", true, false, false, 0⟩ "p1" true "u" rfl
      ⟨some "u", []⟩ "c" true true "u" rfl).1 rfl
  · exact (C2_in_flight_guard ⟨some "u", false, false, true, 3⟩ "p1" false "u" rfl
      ⟨some "u", []⟩ "c" true true "u" rfl).2.1 rfl
  · exact (C2_in_flight_guard ⟨some "u", true, false, false, 0⟩ "p1" true "u" rfl
      ⟨some "u", []⟩ "c" true true "u" rfl).2.2

/-- C7 counterexample: the render test is JS truthiness on the nullable
string, so a comment whose `deleted_at` is the non-null empty string renders
its content, not the redacted placeholder, contrary to the claim's
"whose deleted_at is non-null". -/
theorem C7_render_truthiness :
    renderCommentBody (some "") false "" "hello" = .content "hello" ∧
    (some "" : Option String) ≠ none ∧
    renderCommentBody (some "") false "" "hello" ≠ .redacted := by
  refine ⟨?_, ?_, ?_⟩ <;> decide

/-- C7 (amended): deleting a comment or reply is a soft delete —
`handleDeleteComment` issues exactly one update setting `deleted_at` on the
row matching the comment id and the current user, and never a row
deletion — and every comment or reply whose `deleted_at` is a non-empty
string (the code only ever writes ISO timestamps) renders as the redacted
placeholder. -/
theorem C7_soft_delete_and_redaction (user : Option String) (confirmed : Bool)
    (commentId now : String) (t : String) (ht : t ≠ "")
    (isEditing : Bool) (draft text : String) :
    (confirmed = true →
      handleDeleteComment user confirmed commentId now =
        [.softDeleteComment commentId user now]) ∧
    (confirmed = false → handleDeleteComment user confirmed commentId now = []) ∧
    (∀ call ∈ handleDeleteComment user confirmed commentId now,
      call = .softDeleteComment commentId user now) ∧
    (∀ cid, BackendCall.hardDeleteComment cid ∉
      handleDeleteComment user confirmed commentId now) ∧
    renderCommentBody (some t) isEditing draft text = .redacted := by
  refine ⟨?_, ?_, ?_, ?_, ?_⟩
  · intro hcf
    simp [handleDeleteComment, hcf]
  · intro hcf
    simp [handleDeleteComment, hcf]
  · intro call hcall
    cases confirmed <;> simp [handleDeleteComment] at hcall
    exact hcall
  · intro cid
    cases confirmed <;> simp [handleDeleteComment]
  · simp [renderCommentBody, ht]

/-- Witness for C7: a concrete confirmed delete and a concrete soft-deleted
timestamped comment. -/
theorem C7_soft_delete_and_redaction_witness :
    handleDeleteComment (some "u") true "c9" "2024-01-01T00:00:00.000Z" =
      [.softDeleteComment "c9" (some "u") "2024-01-01T00:00:00.000Z"] ∧
    renderCommentBody (some "2024-01-01T00:00:00.000Z") false "" "body" =
      .redacted := by
  have h := C7_soft_delete_and_redaction (some "u") true "c9"
    "2024-01-01T00:00:00.000Z" "2024-01-01T00:00:00.000Z" (by decide)
    false "" "body"
  exact ⟨h.1 rfl, h.2.2.2.2⟩

/-- C8: after a successful comment like toggle, the local update changes
exactly the entry (top-level or nested reply) whose id matches, flipping its
`isLiked` and moving its count by one; every other comment and reply is left
unchanged, position by position. -/
theorem C8_toggle_like_frame (comments : List CommentItem) (cid : String)
    (b : Bool) (i : Nat) (c : CommentItem) (hc : comments[i]? = some c) :
    ∃ c', (updateCommentsLike comments cid b)[i]? = some c' ∧
      (c.id = cid →
        c' = { c with
                 isLiked := !b
                 likesCount := if b then c.likesCount - 1 else c.likesCount + 1 }) ∧
      (c.id = cid → b = c.isLiked →
        c'.isLiked = !c.isLiked ∧
        (c.isLiked = true → c'.likesCount = c.likesCount - 1) ∧
        (c.isLiked = false → c'.likesCount = c.likesCount + 1) ∧
        c'.replies = c.replies ∧ c'.content = c.content ∧ c'.id = c.id) ∧
      (c.id ≠ cid →
        c'.id = c.id ∧ c'.content = c.content ∧ c'.userId = c.userId ∧
        c'.deletedAt = c.deletedAt ∧ c'.likesCount = c.likesCount ∧
        c'.isLiked = c.isLiked ∧ c'.repliesCount = c.repliesCount ∧
        (∀ (j : Nat) (r : ReplyItem), c.replies[j]? = some r →
          ∃ r' : ReplyItem, c'.replies[j]? = some r' ∧
            (r.id = cid →
              r' = { r with
                       isLiked := !b
                       likesCount := if b then r.likesCount - 1 else r.likesCount + 1 }) ∧
            (r.id ≠ cid → r' = r))) ∧
      (c.id ≠ cid → (∀ r ∈ c.replies, r.id ≠ cid) → c' = c) := by
  refine ⟨applyLikeToComment cid b c, ?_, ?_, ?_, ?_, ?_⟩
  · simp [updateCommentsLike, List.getElem?_map, hc]
  · intro hid
    simp [applyLikeToComment, hid]
  · intro hid hb
    subst hb
    cases hcl : c.isLiked <;> simp [applyLikeToComment, hid, hcl]
  · intro hid
    by_cases hr : c.replies.length > 0
    · have hc' : applyLikeToComment cid b c =
          { c with replies := c.replies.map (applyLikeToReply cid b) } := by
        simp [applyLikeToComment, hid, hr]
      rw [hc']
      refine ⟨rfl, rfl, rfl, rfl, rfl, rfl, rfl, ?_⟩
      intro j r hjr
      refine ⟨applyLikeToReply cid b r, ?_, ?_, ?_⟩
      · simp [List.getElem?_map, hjr]
      · intro hrid
        simp [applyLikeToReply, hrid]
      · intro hrid
        simp [applyLikeToReply, hrid]
    · have hc' : applyLikeToComment cid b c = c := by
        simp [applyLikeToComment, hid, hr]
      rw [hc']
      refine ⟨rfl, rfl, rfl, rfl, rfl, rfl, rfl, ?_⟩
      intro j r hjr
      have hnil : c.replies = [] := List.length_eq_zero.mp (by omega)
      rw [hnil] at hjr
      simp at hjr
  · intro hid hall
    by_cases hr : c.replies.length > 0
    · have hmap : c.replies.map (applyLikeToReply cid b) = c.replies := by
        have hcg : ∀ r ∈ c.replies, applyLikeToReply cid b r = id r := by
          intro r hr2
          simp [applyLikeToReply, hall r hr2]
        rw [List.map_congr_left hcg, List.map_id]
      simp [applyLikeToComment, hid, hr, hmap]
    · simp [applyLikeToComment, hid, hr]

/-- Witness for C8: a concrete two-comment list where the toggled id is a
nested reply of the first comment. -/
theorem C8_toggle_like_frame_witness :
    ∃ c', (updateCommentsLike
        [⟨"c1", "hi", "u1", none, 3, false, 1, [⟨"r1", "re", "u2", none, 0, false⟩]⟩,
         ⟨"c2", "yo", "u3", none, 7, true, 0, []⟩] "r1" false)[0]? = some c' ∧
      c'.id = "c1" ∧ c'.likesCount = 3 ∧
      (∀ (j : Nat) (r : ReplyItem),
          ([⟨"r1", "re", "u2", none, 0, false⟩] : List ReplyItem)[j]? = some r →
        ∃ r' : ReplyItem, c'.replies[j]? = some r' ∧
          (r.id = "r1" →
            r' = { r with
                     isLiked := !false
                     likesCount := if false then r.likesCount - 1 else r.likesCount + 1 }) ∧
          (r.id ≠ "r1" → r' = r)) := by
  obtain ⟨c', h1, _, _, h4, _⟩ := C8_toggle_like_frame
    [⟨"c1", "hi", "u1", none, 3, false, 1, [⟨"r1", "re", "u2", none, 0, false⟩]⟩,
     ⟨"c2", "yo", "u3", none, 7, true, 0, []⟩] "r1" false 0
    ⟨"c1", "hi", "u1", none, 3, false, 1, [⟨"r1", "re", "u2", none, 0, false⟩]⟩ rfl
  obtain ⟨hid, _, _, _, hlc, _, _, hreps⟩ := h4 (by decide)
  exact ⟨c', h1, hid, hlc, hreps⟩

/-- C6: `fetchPosts` pages the public relation at fixed offsets
`12p .. 12p+11`; a `popular` page is re-sorted client-side in non-increasing
`likes_count + comments_count`; and `hasMore` holds exactly when
`12p + 12` is below the reported total count. -/
theorem C6_fetchPosts_paging (rows : List PostRow) (likesOf commentsOf : String → Nat)
    (sort : SortOption) (p : Nat) (count : Option Nat) :
    (∀ i : Nat, i < POSTS_PER_PAGE →
      (((rows.filter (fun r => r.isPublic)).drop (POSTS_PER_PAGE * p)).take POSTS_PER_PAGE)[i]? =
        (rows.filter (fun r => r.isPublic))[POSTS_PER_PAGE * p + i]?) ∧
    (∀ x ∈ ((rows.filter (fun r => r.isPublic)).drop (POSTS_PER_PAGE * p)).take POSTS_PER_PAGE,
      x.isPublic = true) ∧
    (sort = .latest →
      (fetchPosts rows likesOf commentsOf sort p count).1 =
        (((rows.filter (fun r => r.isPublic)).drop (POSTS_PER_PAGE * p)).take POSTS_PER_PAGE).map
          (fun r => ⟨r, likesOf r.id, commentsOf r.id⟩)) ∧
    (sort = .popular →
      ((fetchPosts rows likesOf commentsOf sort p count).1).Perm
        ((((rows.filter (fun r => r.isPublic)).drop (POSTS_PER_PAGE * p)).take POSTS_PER_PAGE).map
          (fun r => ⟨r, likesOf r.id, commentsOf r.id⟩)) ∧
      List.Sorted (fun a b => popularScore b ≤ popularScore a)
        (fetchPosts rows likesOf commentsOf sort p count).1) ∧
    (∀ c : Nat, count = some c →
      ((fetchPosts rows likesOf commentsOf sort p count).2 = true ↔
        POSTS_PER_PAGE * p + POSTS_PER_PAGE < c)) ∧
    (count = none → (fetchPosts rows likesOf commentsOf sort p count).2 = false) := by
  refine ⟨?_, ?_, ?_, ?_, ?_, ?_⟩
  · intro i hi
    rw [List.getElem?_take, if_pos hi, List.getElem?_drop]
  · intro x hx
    have hx1 : x ∈ (rows.filter (fun r => r.isPublic)).drop (POSTS_PER_PAGE * p) :=
      List.mem_of_mem_take hx
    have hx2 : x ∈ rows.filter (fun r => r.isPublic) := List.mem_of_mem_drop hx1
    simpa using List.of_mem_filter hx2
  · intro hs
    subst hs
    simp [fetchPosts]
  · intro hs
    subst hs
    haveI htot : IsTotal PostWithCounts (fun a b => popularScore b ≤ popularScore a) :=
      ⟨fun a b => Nat.le_total (popularScore b) (popularScore a)⟩
    haveI htr : IsTrans PostWithCounts (fun a b => popularScore b ≤ popularScore a) :=
      ⟨fun _ _ _ hab hbc => le_trans hbc hab⟩
    constructor
    · simpa [fetchPosts, sortByScoreDesc] using
        List.perm_insertionSort (fun a b => popularScore b ≤ popularScore a) _
    · simpa [fetchPosts, sortByScoreDesc] using
        List.sorted_insertionSort (fun a b => popularScore b ≤ popularScore a) _
  · intro c hcount
    subst hcount
    simp [fetchPosts]
  · intro hcount
    subst hcount
    simp [fetchPosts]

/-- Witness for C6: one public row, page 0, a reported count of 30 (more
pages) and of 5 (no more pages), and the identity of the latest-sorted
page. -/
theorem C6_fetchPosts_paging_witness :
    (fetchPosts [⟨"a", true⟩, ⟨"b", false⟩] (fun _ => 1) (fun _ => 2) .latest 0 (some 30)).2
      = true ∧
    (fetchPosts [⟨"a", true⟩, ⟨"b", false⟩] (fun _ => 1) (fun _ => 2) .latest 0 (some 5)).2
      = false ∧
    (fetchPosts [⟨"a", true⟩, ⟨"b", false⟩] (fun _ => 1) (fun _ => 2) .latest 0 (some 30)).1
      = [⟨⟨"a", true⟩, 1, 2⟩] := by
  refine ⟨?_, ?_, ?_⟩
  · exact ((C6_fetchPosts_paging [⟨"a", true⟩, ⟨"b", false⟩] (fun _ => 1) (fun _ => 2)
      .latest 0 (some 30)).2.2.2.2.1 30 rfl).mpr (by decide)
  · have h := (C6_fetchPosts_paging [⟨"a", true⟩, ⟨"b", false⟩] (fun _ => 1) (fun _ => 2)
      .latest 0 (some 5)).2.2.2.2.1 5 rfl
    have h2 : ¬ (POSTS_PER_PAGE * 0 + POSTS_PER_PAGE < 5) := by decide
    cases hb : (fetchPosts [⟨"a", true⟩, ⟨"b", false⟩] (fun _ => 1) (fun _ => 2)
        .latest 0 (some 5)).2
    · rfl
    · exact absurd (h.mp hb) h2
  · have h := (C6_fetchPosts_paging [⟨"a", true⟩, ⟨"b", false⟩] (fun _ => 1) (fun _ => 2)
      .latest 0 (some 30)).2.2.1 rfl
    rw [h]
    decide

/-! ## Lemmas on the modelled regex engine -/

/-- A matching prefix needs at least as many characters as atoms. -/
theorem matchesFront_length (toks : List RTok) (s : List Char)
    (h : matchesFront toks s = true) : toks.length ≤ s.length := by
  induction toks generalizing s with
  | nil => simp
  | cons t ts ih =>
    cases s with
    | nil => simp [matchesFront] at h
    | cons c cs =>
      simp only [matchesFront, Bool.and_eq_true] at h
      simpa using ih cs h.2

/-- A prefix match survives appending on the right. -/
theorem matchesFront_append (toks : List RTok) (u v : List Char)
    (h : matchesFront toks u = true) : matchesFront toks (u ++ v) = true := by
  induction toks generalizing u with
  | nil => simp [matchesFront]
  | cons t ts ih =>
    cases u with
    | nil => simp [matchesFront] at h
    | cons c cs =>
      simp only [matchesFront, Bool.and_eq_true] at h
      simpa [matchesFront, h.1] using ih cs h.2

/-- A prefix match is a match of the first `toks.length` characters. -/
theorem matchesFront_take (toks : List RTok) (s : List Char)
    (h : matchesFront toks s = true) :
    matchesFront toks (s.take toks.length) = true := by
  induction toks generalizing s with
  | nil => simp [matchesFront]
  | cons t ts ih =>
    cases s with
    | nil => simp [matchesFront] at h
    | cons c cs =>
      simp only [matchesFront, Bool.and_eq_true] at h
      simpa [matchesFront, h.1] using ih cs h.2

/-- When `findMatch` finds nothing, no suffix of the input matches. -/
theorem findMatch_none_noOcc (toks : List RTok) (s : List Char)
    (h : findMatch toks s = none) :
    ∀ p, matchesFront toks (s.drop p) = false := by
  induction s with
  | nil =>
    intro p
    simp only [findMatch] at h
    split at h
    · simp at h
    · simpa [List.drop_nil] using Bool.eq_false_iff.mpr (by simp_all)
  | cons c cs ih =>
    intro p
    simp only [findMatch] at h
    split at h
    · simp at h
    · cases hf : findMatch toks cs with
      | some pr => rw [hf] at h; simp at h
      | none =>
        cases p with
        | zero =>
          simp only [List.drop_zero]
          simp_all
        | succ p =>
          simpa using ih hf p

/-- What `findMatch` finds: the captured part is a full match of the
pattern's length, and (for a nonempty pattern) no suffix of the part before
it matches. -/
theorem findMatch_some_facts (t : RTok) (ts : List RTok) (s pre m rest : List Char)
    (h : findMatch (t :: ts) s = some (pre, m, rest)) :
    matchesFront (t :: ts) m = true ∧ m.length = (t :: ts).length ∧
      (∀ p, matchesFront (t :: ts) (pre.drop p) = false) := by
  induction s generalizing pre m rest with
  | nil => simp [findMatch, matchesFront] at h
  | cons c cs ih =>
    simp only [findMatch] at h
    split at h
    · rename_i hm
      simp only [Option.some.injEq, Prod.mk.injEq] at h
      obtain ⟨h1, h2, h3⟩ := h
      subst h1; subst h2
      refine ⟨matchesFront_take _ _ hm, ?_, ?_⟩
      · have := matchesFront_length _ _ hm
        simp only [List.length_take]
        omega
      · intro p
        simp [matchesFront]
    · rename_i hnm
      cases hf : findMatch (t :: ts) cs with
      | none => rw [hf] at h; simp at h
      | some pr =>
        obtain ⟨pre', m', rest'⟩ := pr
        simp only [hf, Option.map_some, Option.some.injEq, Prod.mk.injEq] at h
        obtain ⟨h1, h2, h3⟩ := h
        obtain ⟨f1, f2, f3⟩ := ih pre' m' rest' hf
        refine ⟨f1, f2, ?_⟩
        intro p
        cases p with
        | zero =>
          simp only [List.drop_zero]
          by_contra hcon
          rw [Bool.not_eq_false] at hcon
          have happ := matchesFront_append _ _ (m' ++ rest') hcon
          have hdec : pre' ++ m' ++ rest' = cs := findMatch_append _ _ _ _ _ hf
          have : (c :: pre') ++ (m' ++ rest') = c :: cs := by
            simpa [List.append_assoc] using congrArg (c :: ·) hdec
          rw [this] at happ
          simp_all
        | succ p =>
          simpa using f3 p

/-- If no suffix matches, the stateful `test` search finds nothing from any
`lastIndex`. -/
theorem firstMatchFrom_none (toks : List RTok) (s : List Char) (lastIndex : Nat)
    (h : ∀ p, matchesFront toks (s.drop p) = false) :
    firstMatchFrom toks s lastIndex = none := by
  apply List.find?_eq_none.mpr
  intro p _
  simp [h p]

/-- A part that matches at its head is found at position 0 when searching
from `lastIndex = 0`. -/
theorem firstMatchFrom_zero (toks : List RTok) (s : List Char)
    (h : matchesFront toks s = true) :
    firstMatchFrom toks s 0 = some 0 := by
  unfold firstMatchFrom
  rw [List.range_succ_eq_map, List.find?_cons]
  simp [h]

/-- The shape of a capture-group split: parts alternate between separators
(no suffix of which matches the pattern) and captured full matches, ending
on a separator. -/
inductive AltParts (toks : List RTok) : List (List Char) → Prop
  | last (b : List Char) (hb : ∀ p, matchesFront toks (b.drop p) = false) :
      AltParts toks [b]
  | step (b m : List Char) (rest : List (List Char))
      (hb : ∀ p, matchesFront toks (b.drop p) = false)
      (hm : matchesFront toks m = true) (hlen : m.length = toks.length)
      (hrest : AltParts toks rest) : AltParts toks (b :: m :: rest)

/-- The split parts concatenate back to the input. -/
theorem splitCaptureF_join (t : RTok) (ts : List RTok) :
    ∀ fuel s, s.length < fuel → (splitCaptureF t ts fuel s).flatten = s := by
  intro fuel
  induction fuel with
  | zero => intro s h; omega
  | succ fuel ih =>
    intro s h
    simp only [splitCaptureF]
    cases hf : findMatch (t :: ts) s with
    | none => simp
    | some pr =>
      obtain ⟨pre, m, rest⟩ := pr
      have hrest := findMatch_rest_lt t ts s pre m rest hf
      have hdec := findMatch_append _ _ _ _ _ hf
      simp only [List.flatten_cons]
      rw [ih rest (by omega)]
      simpa [List.append_assoc] using hdec

/-- The split has the alternating shape. -/
theorem splitCaptureF_altParts (t : RTok) (ts : List RTok) :
    ∀ fuel s, s.length < fuel → AltParts (t :: ts) (splitCaptureF t ts fuel s) := by
  intro fuel
  induction fuel with
  | zero => intro s h; omega
  | succ fuel ih =>
    intro s h
    simp only [splitCaptureF]
    cases hf : findMatch (t :: ts) s with
    | none => exact .last s (findMatch_none_noOcc _ _ hf)
    | some pr =>
      obtain ⟨pre, m, rest⟩ := pr
      have hrest := findMatch_rest_lt t ts s pre m rest hf
      obtain ⟨f1, f2, f3⟩ := findMatch_some_facts t ts s pre m rest hf
      exact .step pre m _ f3 f1 f2 (ih rest (by omega))

/-- Marking does not change the parts themselves. -/
theorem markParts_fst (toks : List RTok) :
    ∀ parts lastIndex, (markParts toks parts lastIndex).map Prod.fst = parts := by
  intro parts
  induction parts with
  | nil => intro lastIndex; simp [markParts]
  | cons part rest ih =>
    intro lastIndex
    simp only [markParts]
    cases firstMatchFrom toks part lastIndex with
    | some p => simp [ih]
    | none => simp [ih]

/-- On an alternating parts list the stateful `regex.test` pass marks a part
exactly when it is a captured full match, for every incoming `lastIndex`:
a separator part has no matching suffix at all, so it tests false and resets
`lastIndex` to 0, and each captured match is therefore tested from 0 and
found at its head. -/
theorem markParts_marks (toks : List RTok) :
    ∀ parts, AltParts toks parts → ∀ lastIndex pr,
      pr ∈ markParts toks parts lastIndex →
      (pr.2 = true ↔
        (matchesFront toks pr.1 = true ∧ pr.1.length = toks.length)) := by
  intro parts halt
  induction halt with
  | last b hb =>
    intro lastIndex pr hpr
    simp only [markParts, firstMatchFrom_none toks b lastIndex hb] at hpr
    simp only [markParts, List.mem_singleton] at hpr
    subst hpr
    simp only [Bool.false_eq_true, false_iff, not_and]
    intro hmb
    have := hb 0
    simp_all
  | step b m rest hb hm hlen hrest ih =>
    intro lastIndex pr hpr
    simp only [markParts, firstMatchFrom_none toks b lastIndex hb,
      firstMatchFrom_zero toks m hm, List.mem_cons] at hpr
    rcases hpr with hpr | hpr | hpr
    · subst hpr
      simp only [Bool.false_eq_true, false_iff, not_and]
      intro hmb
      have := hb 0
      simp_all
    · subst hpr
      simp [hm, hlen]
    · exact ih (0 + toks.length) pr hpr

/-- Symmetry of `charEqCI`. -/
theorem charEqCI_comm (a b : Char) : charEqCI a b = charEqCI b a := by
  simp [charEqCI, eq_comm]

/-- For an all-literal pattern (a query without metacharacters), being a
captured full match is exactly case-insensitive equality with the query. -/
theorem matchesFront_lit_iff (q : List Char) :
    ∀ s : List Char,
      stringEqCI s q = true ↔
        (matchesFront (q.map RTok.lit) s = true ∧ s.length = (q.map RTok.lit).length) := by
  induction q with
  | nil =>
    intro s
    cases s <;> simp [stringEqCI, matchesFront]
  | cons qh qt ih =>
    intro s
    cases s with
    | nil => simp [stringEqCI, matchesFront]
    | cons sh st =>
      have hih := ih st
      simp only [stringEqCI, List.zip_cons_cons, List.all_cons, List.length_cons,
        List.map_cons, matchesFront, tokMatches, Bool.and_eq_true,
        decide_eq_true_eq, List.length_map] at *
      constructor
      · rintro ⟨hlen, hch, hall⟩
        have := hih.mp ⟨by omega, hall⟩
        refine ⟨⟨by rw [charEqCI_comm]; exact hch, this.1⟩, by omega⟩
      · rintro ⟨⟨hch, hmp⟩, hlen⟩
        have := hih.mpr ⟨hmp, by omega⟩
        exact ⟨by omega, by rw [charEqCI_comm]; exact hch, this.2⟩

/-- A query containing no regex metacharacter tokenizes to all-literal
atoms. -/
theorem jsRegexTokens_all_lit (l : List Char) (h : ∀ c ∈ l, c ∉ regexMetachars) :
    jsRegexTokens l = some (l.map RTok.lit) := by
  induction l with
  | nil => simp [jsRegexTokens]
  | cons c cs ih =>
    have hc : c ∉ regexMetachars := h c (by simp)
    have hdot : ¬ c = '.' := by
      intro hcd
      exact hc (by simp [hcd, regexMetachars])
    simp only [jsRegexTokens, hdot, if_false, hc, ite_false,
      ih (fun d hd => h d (by simp [hd])), List.map_cons]
    rfl

/-- C10 counterexample: the raw query is spliced into the pattern, so a
query made of regex metacharacters is interpreted as a regular expression,
not as literal text.  With query `"."` the pattern `(.)`  matches any
character: on text `"a"` the fragment `"a"` is highlighted although it does
not equal the query up to character case, refuting the claim's "highlighted
exactly when it equals the search query".  (Queries with unbalanced
metacharacters, e.g. `"("`, even make the `RegExp` constructor throw, which
lies outside the modelled fragment.) -/
theorem C10_metachar_counterexample :
    highlightText "a" "." = some [("", false), ("a", true), ("", false)] ∧
    stringEqCI ("a" : String).data ("." : String).data = false := by
  refine ⟨?_, ?_⟩ <;> decide

/-- C10 (amended): for every text and every query that trims non-blank and
contains no regular-expression metacharacter, `highlightText` returns a
fragment list whose concatenation is the original text, and a fragment is
highlighted exactly when it equals the query up to character case. -/
theorem C10_highlightText_literal (text query : String)
    (hmeta : ∀ c ∈ query.data, c ∉ regexMetachars)
    (hq : jsTrim query ≠ "") :
    ∃ frags : List (String × Bool), highlightText text query = some frags ∧
      (frags.map (fun fr => fr.1.data)).flatten = text.data ∧
      ∀ fr ∈ frags, (fr.2 = true ↔ stringEqCI fr.1.data query.data = true) := by
  have htok := jsRegexTokens_all_lit query.data hmeta
  have hqd : query.data ≠ [] := by
    intro hnil
    apply hq
    have hq0 : query = "" := by
      cases query with
      | mk data =>
        simp only at hnil
        simp [hnil]
    rw [hq0]
    rfl
  obtain ⟨q0, qrest, hqq⟩ := List.exists_cons_of_ne_nil hqd
  rw [hqq] at htok
  simp only [List.map_cons] at htok
  have hres : highlightText text query =
      some ((markParts (RTok.lit q0 :: qrest.map RTok.lit)
        (splitCaptureF (RTok.lit q0) (qrest.map RTok.lit)
          (text.data.length + 1) text.data) 0).map
        (fun pr => (String.mk pr.1, pr.2))) := by
    simp only [highlightText, splitCapture, if_neg hq, hqq, htok]
  have hshape := splitCaptureF_altParts (RTok.lit q0) (qrest.map RTok.lit)
    (text.data.length + 1) text.data (by omega)
  have hjoin := splitCaptureF_join (RTok.lit q0) (qrest.map RTok.lit)
    (text.data.length + 1) text.data (by omega)
  refine ⟨_, hres, ?_, ?_⟩
  · rw [List.map_map]
    have hcomp :
        ((fun fr : String × Bool => fr.1.data) ∘
          (fun pr : List Char × Bool => (String.mk pr.1, pr.2))) =
        (Prod.fst : List Char × Bool → List Char) := rfl
    rw [hcomp, markParts_fst]
    exact hjoin
  · intro fr hfr
    obtain ⟨pr, hpr, hfr2⟩ := List.mem_map.mp hfr
    subst hfr2
    have hmark := markParts_marks (RTok.lit q0 :: qrest.map RTok.lit) _ hshape 0 pr hpr
    have hlit := matchesFront_lit_iff query.data pr.1
    rw [hqq] at hlit
    simp only [List.map_cons] at hlit
    simp only []
    rw [hmark, ← hlit, hqq]

/-- Witness for C10: the metacharacter-free query `"cat"` on the text
`"Cat and cat"`. -/
theorem C10_highlightText_literal_witness :
    ∃ frags : List (String × Bool), highlightText "Cat and cat" "cat" = some frags ∧
      (frags.map (fun fr => fr.1.data)).flatten = ("Cat and cat" : String).data ∧
      ∀ fr ∈ frags, (fr.2 = true ↔
        stringEqCI fr.1.data ("cat" : String).data = true) :=
  C10_highlightText_literal "Cat and cat" "cat" (by decide) (by decide)

end MyBlog
